import Mathlib

/-!
Verification of the `mls-rs` repository glue code:
`mls-rs-uniffi/uniffi-bindgen/src/main.rs` (a flag-forwarding CLI shim that
scans the argument vector for three iOS-specific flags and exports them as
environment variables before delegating to `uniffi::uniffi_bindgen_main`)
and `mls-rs-uniffi/build.rs` (a build script that prints two rerun
directives and two warnings).

The process environment is modelled as a total map from variable names to
optional string values; `env::set_var` becomes a functional update.  The
`for i in 0..args.len()` loop of `main.rs` is embedded literally as a fold
of a per-index step over `List.range args.length` (`scanStep` / `scanArgs`),
and separately as a structural recursion (`scanList`) proved equal to it.
-/

namespace UniffiBindgen

/-- The process environment: each variable name maps to its value, or to
`none` when the variable is unset. -/
def Env : Type := String → Option String

/-- An environment with no variable set. -/
def emptyEnv : Env := fun _ => none

/-- Embedding of `std::env::set_var`: functional update of one variable. -/
def setVar (env : Env) (key value : String) : Env :=
  fun k => if k = key then some value else env k

/-- One iteration of the `for i in 0..args.len()` loop in
`uniffi-bindgen/src/main.rs`: match `args[i]` against the three recognized
flags and, when a following value `args[i + 1]` exists (the source's
`i + 1 < args.len()` bounds check, here `getElem?` returning `some`), set
the corresponding environment variable. -/
def scanStep (args : List String) (env : Env) (i : Nat) : Env :=
  match args[i]? with
  | some "--swift-out-dir" =>
      match args[i + 1]? with
      | some v => setVar env "UNIFFI_SWIFT_OUT_DIR" v
      | none => env
  | some "--framework-name" =>
      match args[i + 1]? with
      | some v => setVar env "UNIFFI_FRAMEWORK_NAME" v
      | none => env
  | some "--ios-deployment-target" =>
      match args[i + 1]? with
      | some v => setVar env "UNIFFI_IOS_DEPLOYMENT_TARGET" v
      | none => env
  | _ => env

/-- The whole flag scan of `main`: the loop body `scanStep` folded over the
index range `0..args.len()`. -/
def scanArgs (args : List String) (env : Env) : Env :=
  (List.range args.length).foldl (scanStep args) env

/-- The table of recognized flags: which environment variable a flag token
sets (`none` for unrecognized tokens). -/
def flagVar : String → Option String
  | "--swift-out-dir" => some "UNIFFI_SWIFT_OUT_DIR"
  | "--framework-name" => some "UNIFFI_FRAMEWORK_NAME"
  | "--ios-deployment-target" => some "UNIFFI_IOS_DEPLOYMENT_TARGET"
  | _ => none

/-- The assignment performed by one loop iteration, as data: the token at
the current position together with the (optional) next token determine at
most one `(variable, value)` pair, mirroring the three match arms of the
source. -/
def stepAssign (a : String) (next : Option String) : Option (String × String) :=
  match a, next with
  | "--swift-out-dir", some v => some ("UNIFFI_SWIFT_OUT_DIR", v)
  | "--framework-name", some v => some ("UNIFFI_FRAMEWORK_NAME", v)
  | "--ios-deployment-target", some v => some ("UNIFFI_IOS_DEPLOYMENT_TARGET", v)
  | _, _ => none

/-- Structural version of the scan: process the head (with one token of
lookahead) and recurse on the tail.  Proved equal to `scanArgs` in
`scanArgs_eq_scanList`. -/
def scanList : List String → Env → Env
  | [], env => env
  | a :: rest, env =>
      scanList rest
        (match stepAssign a rest.head? with
         | some p => setVar env p.1 p.2
         | none => env)

/-- The value the scan would leave in variable `k`, if any: the value of
the last loop iteration that assigns to `k` (`none` when no iteration
does). -/
def lastSet : List String → String → Option String
  | [], _ => none
  | a :: rest, k =>
      match lastSet rest k with
      | some v => some v
      | none =>
          match stepAssign a rest.head? with
          | some p => if k = p.1 then some p.2 else none
          | none => none

/-- The sequence of environment-variable assignments the scan performs, in
execution order. -/
def scanTrace : List String → List (String × String)
  | [] => []
  | a :: rest =>
      match stepAssign a rest.head? with
      | some p => p :: scanTrace rest
      | none => scanTrace rest

/-- Replay a list of assignments on an environment. -/
def applyTrace (t : List (String × String)) (env : Env) : Env :=
  t.foldl (fun e p => setVar e p.1 p.2) env

/-- The assignment produced by loop index `i` on `args`, if any. -/
def assignOf (args : List String) (i : Nat) : Option (String × String) :=
  match args[i]? with
  | some a => stepAssign a args[i + 1]?
  | none => none

/-- The possible continuations of the shim: after the scan, `main`
unconditionally calls `uniffi::uniffi_bindgen_main()` with no explicit
parameters; the constructor records the environment the entry point then
observes. -/
inductive MainAction where
  | uniffiBindgenMain (env : Env)

/-- Embedding of `main` in `uniffi-bindgen/src/main.rs`: scan the argument
vector, then delegate to the external generator entry point. -/
def main (args : List String) (env : Env) : MainAction :=
  MainAction.uniffiBindgenMain (scanArgs args env)

end UniffiBindgen

namespace BuildScript

/-- Embedding of `main` in `mls-rs-uniffi/build.rs`: the four lines it
prints to standard output, in print order.  The script takes no input and
computes nothing: it is a constant. -/
def main : List String :=
  ["cargo:warning=MLS-RS UniFFI build script running",
   "cargo:rerun-if-changed=src/",
   "cargo:rerun-if-changed=Cargo.toml",
   "cargo:warning=Build script completed - use ./bindings/build-xcframework.sh to generate Swift bindings"]

/-- A line is a rerun directive when it starts with the
`cargo:rerun-if-changed=` directive key. -/
def isRerunDirective (l : String) : Bool :=
  "cargo:rerun-if-changed=".data.isPrefixOf l.data

/-- A line is a warning when it starts with the `cargo:warning=` key. -/
def isWarningLine (l : String) : Bool :=
  "cargo:warning=".data.isPrefixOf l.data

end BuildScript

namespace UniffiBindgen

theorem stepAssign_eq_flagVar (a : String) (next : Option String) :
    stepAssign a next =
      match flagVar a, next with
      | some w, some v => some (w, v)
      | _, _ => none := by
  cases next <;> unfold stepAssign flagVar <;> split <;> simp_all

theorem stepAssign_of_flagVar {a w : String} (h : flagVar a = some w) (v : String) :
    stepAssign a (some v) = some (w, v) := by
  rw [stepAssign_eq_flagVar, h]

theorem stepAssign_of_not_flag {a : String} (h : flagVar a = none)
    (next : Option String) : stepAssign a next = none := by
  rw [stepAssign_eq_flagVar, h]

theorem stepAssign_none (a : String) : stepAssign a none = none := by
  rw [stepAssign_eq_flagVar]
  cases flagVar a <;> rfl

theorem stepAssign_flagVar {a : String} {next : Option String}
    {p : String × String} (h : stepAssign a next = some p) :
    flagVar a = some p.1 ∧ next = some p.2 := by
  rw [stepAssign_eq_flagVar] at h
  cases next with
  | none => cases hf : flagVar a <;> rw [hf] at h <;> simp_all
  | some v =>
      cases hf : flagVar a with
      | none => rw [hf] at h; simp_all
      | some w =>
          rw [hf] at h
          simp only [Option.some.injEq] at h
          subst h
          exact ⟨rfl, rfl⟩

theorem flagVar_injOn {a b wa wb : String} (ha : flagVar a = some wa)
    (hb : flagVar b = some wb) (hw : wa = wb) : a = b := by
  unfold flagVar at ha hb
  split at ha <;> split at hb <;> simp_all <;>
    exact absurd (hb.trans ha.symm) (by decide)

/-- `scanStep` in terms of `stepAssign`. -/
theorem scanStep_eq (args : List String) (env : Env) (i : Nat) :
    scanStep args env i =
      match args[i]? with
      | some a =>
          (match stepAssign a args[i + 1]? with
           | some p => setVar env p.1 p.2
           | none => env)
      | none => env := by
  unfold scanStep
  cases h : args[i]? with
  | none => rfl
  | some a =>
      cases hn : args[i + 1]? <;> unfold stepAssign <;> split <;> simp_all

theorem scanStep_succ (a : String) (rest : List String) (env : Env) (i : Nat) :
    scanStep (a :: rest) env (i + 1) = scanStep rest env i := by
  rw [scanStep_eq, scanStep_eq]
  simp [List.getElem?_cons_succ]

/-- The index-based fold of the source loop agrees with the structural
recursion `scanList`. -/
theorem scanArgs_eq_scanList (args : List String) (env : Env) :
    scanArgs args env = scanList args env := by
  induction args generalizing env with
  | nil => rfl
  | cons a rest ih =>
      unfold scanArgs
      rw [List.length_cons, List.range_succ_eq_map, List.foldl_cons, List.foldl_map]
      have hstep : scanStep (a :: rest) env 0 =
          (match stepAssign a rest.head? with
           | some p => setVar env p.1 p.2
           | none => env) := by
        rw [scanStep_eq]
        simp [List.head?_eq_getElem?]
      rw [hstep]
      have hext : ∀ (e : Env), ∀ i ∈ List.range rest.length,
          scanStep (a :: rest) e (i + 1) = scanStep rest e i := by
        intro e i _
        exact scanStep_succ a rest e i
      exact (List.foldl_ext _ (scanStep rest) _ hext).trans (ih _)

theorem scanList_cons (a : String) (rest : List String) (env : Env) :
    scanList (a :: rest) env =
      scanList rest
        (match stepAssign a rest.head? with
         | some p => setVar env p.1 p.2
         | none => env) := rfl

/-- The scan reads nothing from the environment: variable `k` ends up
holding the value of the last loop iteration assigning to `k`, or its
initial value when no iteration assigns to it. -/
theorem scanList_lookup (args : List String) :
    ∀ (env : Env) (k : String),
      scanList args env k =
        match lastSet args k with
        | some v => some v
        | none => env k := by
  induction args with
  | nil => intro env k; rfl
  | cons a rest ih =>
      intro env k
      rw [scanList_cons, ih]
      cases hs : stepAssign a rest.head? with
      | none =>
          cases hl : lastSet rest k <;> simp [lastSet, hl, hs]
      | some p =>
          cases hl : lastSet rest k with
          | some v => simp [lastSet, hl, hs]
          | none =>
              simp only [lastSet, hl, hs]
              by_cases hk : k = p.1 <;> simp [setVar, hk]

/-- A variable is not written when its flag does not occur in the
arguments. -/
theorem lastSet_eq_none_of_not_mem {f w : String} (hf : flagVar f = some w)
    (args : List String) (h : f ∉ args) : lastSet args w = none := by
  induction args with
  | nil => rfl
  | cons a rest ih =>
      have ha : a ≠ f := fun e => h (e ▸ List.mem_cons_self a rest)
      have hrest : lastSet rest w = none :=
        ih (fun hm => h (List.mem_cons_of_mem a hm))
      simp only [lastSet, hrest]
      cases hs : stepAssign a rest.head? with
      | none => rfl
      | some p =>
          have hp := stepAssign_flagVar hs
          have hne : w ≠ p.1 := fun e => ha (flagVar_injOn hp.1 hf e.symm)
          simp [hne]

theorem scanList_not_mem {f w : String} (hf : flagVar f = some w)
    (args : List String) (env : Env) (h : f ∉ args) :
    scanList args env w = env w := by
  rw [scanList_lookup, lastSet_eq_none_of_not_mem hf args h]

/-- Last occurrence wins: when flag `f` occurs followed by value `v` and
never occurs again afterwards, its variable ends up holding `v`. -/
theorem scanList_last_occ {f w : String} (hf : flagVar f = some w)
    (v : String) (rest : List String) (hnot : f ∉ v :: rest) :
    ∀ (xs : List String) (env : Env),
      scanList (xs ++ f :: v :: rest) env w = some v := by
  intro xs
  induction xs with
  | nil =>
      intro env
      rw [List.nil_append, scanList_cons,
        show (v :: rest).head? = some v from rfl,
        stepAssign_of_flagVar hf v, scanList_not_mem hf _ _ hnot]
      simp [setVar]
  | cons x xs ih =>
      intro env
      rw [List.cons_append, scanList_cons]
      exact ih _

/-- A variable is not written when its flag never occurs with a following
value (it may still occur as the final token). -/
theorem lastSet_eq_none_of_no_value {f w : String} (hf : flagVar f = some w) :
    ∀ (args : List String),
      (∀ i, i < args.length → args[i]? = some f → args[i + 1]? = none) →
      lastSet args w = none := by
  intro args
  induction args with
  | nil => intro _; rfl
  | cons a rest ih =>
      intro h
      have hrest : lastSet rest w = none := by
        apply ih
        intro i hi hget
        have hstep := h (i + 1) (by simpa using Nat.succ_lt_succ hi)
          (by simpa using hget)
        simpa using hstep
      simp only [lastSet, hrest]
      cases hs : stepAssign a rest.head? with
      | none => rfl
      | some p =>
          have hp := stepAssign_flagVar hs
          by_cases haf : a = f
          · exfalso
            have h0 := h 0 (Nat.succ_pos _) (by simp [haf])
            rw [List.getElem?_cons_succ, ← List.head?_eq_getElem?, hp.2] at h0
            exact Option.noConfusion h0
          · have hne : w ≠ p.1 := fun e => haf (flagVar_injOn hp.1 hf e.symm)
            simp [hne]

theorem scanList_no_value {f w : String} (hf : flagVar f = some w)
    (args : List String) (env : Env)
    (h : ∀ i, i < args.length → args[i]? = some f → args[i + 1]? = none) :
    scanList args env w = env w := by
  rw [scanList_lookup, lastSet_eq_none_of_no_value hf args h]

/-- A vector with no recognized token leaves the whole environment
untouched. -/
theorem scanList_all_unrecognized (args : List String) :
    ∀ (env : Env), (∀ a ∈ args, flagVar a = none) → scanList args env = env := by
  induction args with
  | nil => intro env _; rfl
  | cons a rest ih =>
      intro env h
      rw [scanList_cons,
        stepAssign_of_not_flag (h a (List.mem_cons_self a rest)) _]
      exact ih env (fun b hb => h b (List.mem_cons_of_mem a hb))

/-- The trace of assignments is exactly one entry per loop index whose
token is a recognized flag with a following value. -/
theorem scanTrace_eq_filterMap (args : List String) :
    scanTrace args = (List.range args.length).filterMap (assignOf args) := by
  induction args with
  | nil => rfl
  | cons a rest ih =>
      rw [List.length_cons, List.range_succ_eq_map, List.filterMap_cons,
        List.filterMap_map]
      have h0 : assignOf (a :: rest) 0 = stepAssign a rest.head? := by
        simp [assignOf, List.head?_eq_getElem?]
      have hsucc : (assignOf (a :: rest)) ∘ Nat.succ = assignOf rest := by
        funext i
        simp [assignOf, List.getElem?_cons_succ]
      rw [h0, hsucc, ← ih]
      cases hs : stepAssign a rest.head? <;> simp [scanTrace, hs]

/-- Replaying the trace reproduces the scan. -/
theorem scanList_eq_applyTrace (args : List String) :
    ∀ (env : Env), scanList args env = applyTrace (scanTrace args) env := by
  induction args with
  | nil => intro env; rfl
  | cons a rest ih =>
      intro env
      rw [scanList_cons]
      cases hs : stepAssign a rest.head? with
      | none =>
          rw [show scanTrace (a :: rest) = scanTrace rest from by
            simp [scanTrace, hs]]
          exact ih _
      | some p =>
          rw [show scanTrace (a :: rest) = p :: scanTrace rest from by
            simp [scanTrace, hs]]
          exact ih _

/-- When position `j` holds flag `f` with value `v` at `j + 1` and every
later occurrence of `f` has no following value (the bounds check skips
it), the last write to `f`'s variable is `v`. -/
theorem lastSet_last_valued {f w : String} (hf : flagVar f = some w) :
    ∀ (args : List String) (j : Nat) (v : String),
      args[j]? = some f → args[j + 1]? = some v →
      (∀ k, j < k → args[k]? = some f → args[k + 1]? = none) →
      lastSet args w = some v := by
  intro args
  induction args with
  | nil => intro j v hj _ _; simp at hj
  | cons a rest ih =>
      intro j v hj hv hlast
      cases j with
      | zero =>
          have ha : a = f := by simpa using hj
          subst ha
          have hvv : rest.head? = some v := by
            rw [List.head?_eq_getElem?]
            simpa using hv
          have hrest : lastSet rest w = none := by
            apply lastSet_eq_none_of_no_value hf
            intro i hi hget
            have hk := hlast (i + 1) (Nat.succ_pos _) (by simpa using hget)
            simpa using hk
          simp only [lastSet, hrest, hvv, stepAssign_of_flagVar hf v]
          simp
      | succ m =>
          have hrest : lastSet rest w = some v := by
            apply ih m v (by simpa using hj) (by simpa using hv)
            intro k hk hget
            have hko := hlast (k + 1) (Nat.succ_lt_succ hk) (by simpa using hget)
            simpa using hko
          simp [lastSet, hrest]

/-- Claim C1 counterexample: in the argument vector
`["--swift-out-dir", "a", "--swift-out-dir", "b"]` the recognized flag
occurs at position 0 with the value `"a"` at position 1, yet after the
scan `UNIFFI_SWIFT_OUT_DIR` holds `"b"`, not `"a"`: the claim, read over
every qualifying occurrence, fails for a repeated flag. -/
theorem claim1_counterexample :
    ["--swift-out-dir", "a", "--swift-out-dir", "b"][0]? =
        some "--swift-out-dir" ∧
    ["--swift-out-dir", "a", "--swift-out-dir", "b"][1]? = some "a" ∧
    scanArgs ["--swift-out-dir", "a", "--swift-out-dir", "b"] emptyEnv
        "UNIFFI_SWIFT_OUT_DIR" = some "b" ∧
    some "b" ≠ some "a" :=
  ⟨rfl, rfl, rfl, by decide⟩

/-- Claim C1 (amended): for each recognized flag, after the scan the
corresponding environment variable holds the literal string at position
`j + 1` for the LAST position `j` at which the flag occurs with a value
present at `j + 1` (later occurrences may exist, but only valueless ones,
which the bounds check skips); in particular for
`["--swift-out-dir", "/tmp/out"]` the output-directory variable equals
`"/tmp/out"`. -/
theorem claim1_last_occurrence_wins :
    (∀ (f w : String), flagVar f = some w →
      ∀ (args : List String) (env : Env) (j : Nat) (v : String),
        args[j]? = some f → args[j + 1]? = some v →
        (∀ k, j < k → args[k]? = some f → args[k + 1]? = none) →
        scanArgs args env w = some v) ∧
    (∀ env : Env,
      scanArgs ["--swift-out-dir", "/tmp/out"] env "UNIFFI_SWIFT_OUT_DIR" =
        some "/tmp/out") := by
  constructor
  · intro f w hf args env j v hj hv hlast
    rw [scanArgs_eq_scanList, scanList_lookup,
      lastSet_last_valued hf args j v hj hv hlast]
  · intro env
    rfl

/-- Claim C1 witness: the amended claim evaluated on
`["--swift-out-dir", "/tmp/out", "--swift-out-dir"]`, where the flag's
last value-bearing occurrence is at position 0 and the flag recurs
valueless at the end. -/
theorem claim1_witness :
    scanArgs ["--swift-out-dir", "/tmp/out", "--swift-out-dir"] emptyEnv
      "UNIFFI_SWIFT_OUT_DIR" = some "/tmp/out" :=
  claim1_last_occurrence_wins.1 "--swift-out-dir" "UNIFFI_SWIFT_OUT_DIR" rfl
    ["--swift-out-dir", "/tmp/out", "--swift-out-dir"] emptyEnv 0 "/tmp/out"
    rfl rfl
    (by
      intro k hk hget
      rcases k with _ | _ | _ | n
      · exact absurd hk (by decide)
      · exact absurd hget (by decide)
      · rfl
      · simp at hget)

/-- Claim C2: a recognized flag occurring as the last argument (no value
follows) is skipped: the bounds check fails, that iteration assigns
nothing and the scan completes; in particular scanning
`["--swift-out-dir"]` leaves the whole environment unchanged. -/
theorem claim2_trailing_flag_skipped :
    (∀ (args : List String) (env : Env) (i : Nat) (f w : String),
      args[i]? = some f → flagVar f = some w → args.length = i + 1 →
      scanStep args env i = env) ∧
    (∀ env : Env, scanArgs ["--swift-out-dir"] env = env) := by
  constructor
  · intro args env i f w hget hf hlen
    have hnone : args[i + 1]? = none := List.getElem?_eq_none (by omega)
    rw [scanStep_eq, hget, hnone]
    simp [stepAssign_none]
  · intro env
    rfl

/-- Claim C2 witness: the trailing-flag case evaluated on
`["--swift-out-dir"]`. -/
theorem claim2_witness :
    scanStep ["--swift-out-dir"] emptyEnv 0 = emptyEnv ∧
    scanArgs ["--swift-out-dir"] emptyEnv = emptyEnv :=
  ⟨claim2_trailing_flag_skipped.1 ["--swift-out-dir"] emptyEnv 0
      "--swift-out-dir" "UNIFFI_SWIFT_OUT_DIR" rfl rfl rfl,
    claim2_trailing_flag_skipped.2 emptyEnv⟩

/-- Claim C3: unrecognized tokens are silently ignored: an iteration whose
token is not one of the three recognized flags changes nothing, a vector
with no recognized token leaves the whole environment (hence all three
tracked variables) unchanged, and in particular `["--verbose"]` modifies
nothing. -/
theorem claim3_unrecognized_ignored :
    (∀ (args : List String) (env : Env) (i : Nat) (a : String),
      args[i]? = some a → flagVar a = none → scanStep args env i = env) ∧
    (∀ (args : List String) (env : Env),
      (∀ a ∈ args, flagVar a = none) → scanArgs args env = env) ∧
    (∀ env : Env, scanArgs ["--verbose"] env = env) := by
  refine ⟨?_, ?_, ?_⟩
  · intro args env i a hget hf
    rw [scanStep_eq, hget]
    simp [stepAssign_of_not_flag hf]
  · intro args env h
    rw [scanArgs_eq_scanList]
    exact scanList_all_unrecognized args env h
  · intro env
    rw [scanArgs_eq_scanList]
    exact scanList_all_unrecognized _ env (by decide)

/-- Claim C3 witness: the unrecognized-token case evaluated on
`["--verbose"]`. -/
theorem claim3_witness :
    scanArgs ["--verbose"] emptyEnv = emptyEnv ∧
    scanStep ["--verbose"] emptyEnv 0 = emptyEnv :=
  ⟨claim3_unrecognized_ignored.2.1 ["--verbose"] emptyEnv (by decide),
    claim3_unrecognized_ignored.1 ["--verbose"] emptyEnv 0 "--verbose" rfl rfl⟩

/-- Claim C4: after the scan, `main` unconditionally delegates to the
single external generator entry point with no explicit parameters,
whatever the arguments; for the empty argument vector the scan sets no
environment variable before delegating. -/
theorem claim4_unconditional_delegation :
    (∀ (args : List String) (env : Env),
      main args env = MainAction.uniffiBindgenMain (scanArgs args env)) ∧
    (∀ env : Env, scanArgs [] env = env) ∧
    (∀ env : Env, main [] env = MainAction.uniffiBindgenMain env) :=
  ⟨fun _ _ => rfl, fun _ => rfl, fun _ => rfl⟩

/-- A flag occurring exactly once in a vector of the displayed shape puts
its following value in its variable. -/
theorem scanList_count_one {f w : String} (hf : flagVar f = some w)
    (xs : List String) (v : String) (rest : List String) (env : Env)
    (h : (xs ++ f :: v :: rest).count f = 1) :
    scanArgs (xs ++ f :: v :: rest) env w = some v := by
  rw [scanArgs_eq_scanList]
  apply scanList_last_occ hf v rest _ xs env
  intro hmem
  have h1 : 0 < (v :: rest).count f := List.count_pos_iff.mpr hmem
  have h2 : (xs ++ f :: v :: rest).count f =
      xs.count f + ((v :: rest).count f + 1) := by
    rw [List.count_append, List.count_cons_self]
  omega

/-- Claim C5: in a vector of the displayed shape containing
`--framework-name` and `--ios-deployment-target` each exactly once, each
followed by its value, the two variables end up holding those values —
whichever of the two pairs comes first (the remaining positions `xs`,
`ys`, `zs` are arbitrary); in particular
`["--framework-name", "MyFramework", "--ios-deployment-target", "13.0"]`
yields `"MyFramework"` and `"13.0"`. -/
theorem claim5_order_independence :
    (∀ (xs ys zs : List String) (v1 v2 : String) (env : Env),
      (xs ++ "--framework-name" :: v1 ::
          (ys ++ "--ios-deployment-target" :: v2 :: zs)).count
          "--framework-name" = 1 →
      (xs ++ "--framework-name" :: v1 ::
          (ys ++ "--ios-deployment-target" :: v2 :: zs)).count
          "--ios-deployment-target" = 1 →
      scanArgs (xs ++ "--framework-name" :: v1 ::
          (ys ++ "--ios-deployment-target" :: v2 :: zs)) env
          "UNIFFI_FRAMEWORK_NAME" = some v1 ∧
      scanArgs (xs ++ "--framework-name" :: v1 ::
          (ys ++ "--ios-deployment-target" :: v2 :: zs)) env
          "UNIFFI_IOS_DEPLOYMENT_TARGET" = some v2) ∧
    (∀ (xs ys zs : List String) (v1 v2 : String) (env : Env),
      (xs ++ "--ios-deployment-target" :: v2 ::
          (ys ++ "--framework-name" :: v1 :: zs)).count
          "--framework-name" = 1 →
      (xs ++ "--ios-deployment-target" :: v2 ::
          (ys ++ "--framework-name" :: v1 :: zs)).count
          "--ios-deployment-target" = 1 →
      scanArgs (xs ++ "--ios-deployment-target" :: v2 ::
          (ys ++ "--framework-name" :: v1 :: zs)) env
          "UNIFFI_FRAMEWORK_NAME" = some v1 ∧
      scanArgs (xs ++ "--ios-deployment-target" :: v2 ::
          (ys ++ "--framework-name" :: v1 :: zs)) env
          "UNIFFI_IOS_DEPLOYMENT_TARGET" = some v2) ∧
    (∀ env : Env,
      scanArgs ["--framework-name", "MyFramework",
          "--ios-deployment-target", "13.0"] env
          "UNIFFI_FRAMEWORK_NAME" = some "MyFramework" ∧
      scanArgs ["--framework-name", "MyFramework",
          "--ios-deployment-target", "13.0"] env
          "UNIFFI_IOS_DEPLOYMENT_TARGET" = some "13.0") := by
  have hFW : flagVar "--framework-name" = some "UNIFFI_FRAMEWORK_NAME" := rfl
  have hIOS : flagVar "--ios-deployment-target" =
      some "UNIFFI_IOS_DEPLOYMENT_TARGET" := rfl
  refine ⟨?_, ?_, ?_⟩
  · intro xs ys zs v1 v2 env hF hI
    have hre : xs ++ "--framework-name" :: v1 ::
        (ys ++ "--ios-deployment-target" :: v2 :: zs) =
        (xs ++ "--framework-name" :: v1 :: ys) ++
          "--ios-deployment-target" :: v2 :: zs := by
      simp
    constructor
    · exact scanList_count_one hFW xs v1 _ env hF
    · rw [hre] at hI ⊢
      exact scanList_count_one hIOS _ v2 zs env hI
  · intro xs ys zs v1 v2 env hF hI
    have hre : xs ++ "--ios-deployment-target" :: v2 ::
        (ys ++ "--framework-name" :: v1 :: zs) =
        (xs ++ "--ios-deployment-target" :: v2 :: ys) ++
          "--framework-name" :: v1 :: zs := by
      simp
    constructor
    · rw [hre] at hF ⊢
      exact scanList_count_one hFW _ v1 zs env hF
    · exact scanList_count_one hIOS xs v2 _ env hI
  · intro env
    exact ⟨rfl, rfl⟩

/-- Claim C5 witness: the order-independence claim evaluated on
`["--framework-name", "MyFramework", "--ios-deployment-target", "13.0"]`. -/
theorem claim5_witness :
    scanArgs ["--framework-name", "MyFramework",
        "--ios-deployment-target", "13.0"] emptyEnv
        "UNIFFI_FRAMEWORK_NAME" = some "MyFramework" ∧
    scanArgs ["--framework-name", "MyFramework",
        "--ios-deployment-target", "13.0"] emptyEnv
        "UNIFFI_IOS_DEPLOYMENT_TARGET" = some "13.0" :=
  claim5_order_independence.1 [] [] [] "MyFramework" "13.0" emptyEnv
    (by decide) (by decide)

/-- Claim C6: the scan is idempotent — rescanning the same vector starting
from the environment the first scan produced changes nothing — and when a
recognized flag occurs several times, each followed by a value, its
variable ends up holding the value after the last occurrence. -/
theorem claim6_idempotent_last_write :
    (∀ (args : List String) (env : Env),
      scanArgs args (scanArgs args env) = scanArgs args env) ∧
    (∀ (f w : String), flagVar f = some w →
      ∀ (xs : List String) (v : String) (rest : List String) (env : Env),
        f ∉ v :: rest →
        scanArgs (xs ++ f :: v :: rest) env w = some v) := by
  constructor
  · intro args env
    funext k
    simp only [scanArgs_eq_scanList, scanList_lookup]
    cases hl : lastSet args k <;> simp [hl]
  · intro f w hf xs v rest env hnot
    rw [scanArgs_eq_scanList]
    exact scanList_last_occ hf v rest hnot xs env

/-- Claim C6 witness: a repeated flag evaluated on
`["--swift-out-dir", "a", "--swift-out-dir", "b"]` keeps the last value. -/
theorem claim6_witness :
    scanArgs ["--swift-out-dir", "a", "--swift-out-dir", "b"] emptyEnv
      "UNIFFI_SWIFT_OUT_DIR" = some "b" :=
  claim6_idempotent_last_write.2 "--swift-out-dir" "UNIFFI_SWIFT_OUT_DIR" rfl
    ["--swift-out-dir", "a"] "b" [] emptyEnv (by decide)

/-- Claim C7: each loop position holding a recognized flag with a
following value produces exactly one corresponding assignment: the
position's assignment is the flag's variable paired with the following
value, the whole trace is exactly one entry per such position, and
replaying the trace reproduces the scan's final environment. -/
theorem claim7_one_assignment_per_occurrence :
    (∀ (args : List String) (i : Nat) (a w v : String),
      args[i]? = some a → flagVar a = some w → args[i + 1]? = some v →
      assignOf args i = some (w, v)) ∧
    (∀ args : List String,
      scanTrace args = (List.range args.length).filterMap (assignOf args)) ∧
    (∀ (args : List String) (env : Env),
      scanArgs args env = applyTrace (scanTrace args) env) := by
  refine ⟨?_, scanTrace_eq_filterMap, ?_⟩
  · intro args i a w v hget hf hv
    simp [assignOf, hget, hv, stepAssign_of_flagVar hf]
  · intro args env
    rw [scanArgs_eq_scanList]
    exact scanList_eq_applyTrace args env

/-- Claim C7 witness: the one-assignment property evaluated on
`["--swift-out-dir", "/tmp/out"]`. -/
theorem claim7_witness :
    assignOf ["--swift-out-dir", "/tmp/out"] 0 =
      some ("UNIFFI_SWIFT_OUT_DIR", "/tmp/out") ∧
    scanTrace ["--swift-out-dir", "/tmp/out"] =
      (List.range 2).filterMap (assignOf ["--swift-out-dir", "/tmp/out"]) :=
  ⟨claim7_one_assignment_per_occurrence.1 ["--swift-out-dir", "/tmp/out"] 0
      "--swift-out-dir" "UNIFFI_SWIFT_OUT_DIR" "/tmp/out" rfl rfl rfl,
    claim7_one_assignment_per_occurrence.2.1 ["--swift-out-dir", "/tmp/out"]⟩

/-- Claim C9: value tokens are not consumed — the loop index advances by
one over every position, so a recognized flag `g` standing immediately
after a recognized flag `f` is first assigned as `f`'s value and then
processed as a flag itself; in particular
`["--swift-out-dir", "--framework-name", "X"]` leaves
`UNIFFI_SWIFT_OUT_DIR = "--framework-name"` and
`UNIFFI_FRAMEWORK_NAME = "X"`. -/
theorem claim9_values_not_consumed :
    (∀ (f g w w' : String), flagVar f = some w → flagVar g = some w' →
      ∀ (v : String) (rest : List String) (env : Env),
        scanArgs (f :: g :: v :: rest) env =
          scanList (v :: rest) (setVar (setVar env w g) w' v)) ∧
    (∀ env : Env,
      scanArgs ["--swift-out-dir", "--framework-name", "X"] env
          "UNIFFI_SWIFT_OUT_DIR" = some "--framework-name" ∧
      scanArgs ["--swift-out-dir", "--framework-name", "X"] env
          "UNIFFI_FRAMEWORK_NAME" = some "X") := by
  constructor
  · intro f g w w' hf hg v rest env
    rw [scanArgs_eq_scanList, scanList_cons, scanList_cons,
      show (g :: v :: rest).head? = some g from rfl,
      show (v :: rest).head? = some v from rfl,
      stepAssign_of_flagVar hf g, stepAssign_of_flagVar hg v]
  · intro env
    exact ⟨rfl, rfl⟩

/-- Claim C9 witness: the non-consumption property evaluated on
`["--swift-out-dir", "--framework-name", "X"]`. -/
theorem claim9_witness :
    scanArgs ["--swift-out-dir", "--framework-name", "X"] emptyEnv =
      scanList ["X"]
        (setVar (setVar emptyEnv "UNIFFI_SWIFT_OUT_DIR" "--framework-name")
          "UNIFFI_FRAMEWORK_NAME" "X") :=
  claim9_values_not_consumed.1 "--swift-out-dir" "--framework-name"
    "UNIFFI_SWIFT_OUT_DIR" "UNIFFI_FRAMEWORK_NAME" rfl rfl "X" [] emptyEnv

/-- Claim C10: the scan never unsets or defaults a tracked variable: when
a flag never occurs with a following value, its variable holds after the
scan exactly the value it held before (including staying unset). -/
theorem claim10_frame :
    ∀ (f w : String), flagVar f = some w →
      ∀ (args : List String) (env : Env),
        (∀ i, i < args.length → args[i]? = some f → args[i + 1]? = none) →
        scanArgs args env w = env w := by
  intro f w hf args env h
  rw [scanArgs_eq_scanList]
  exact scanList_no_value hf args env h

/-- Claim C10 witness: a preset output-directory value survives a scan of
`["--swift-out-dir"]` (flag present but with no following value). -/
theorem claim10_witness :
    scanArgs ["--swift-out-dir"]
        (setVar emptyEnv "UNIFFI_SWIFT_OUT_DIR" "preset")
        "UNIFFI_SWIFT_OUT_DIR" =
      setVar emptyEnv "UNIFFI_SWIFT_OUT_DIR" "preset" "UNIFFI_SWIFT_OUT_DIR" :=
  claim10_frame "--swift-out-dir" "UNIFFI_SWIFT_OUT_DIR" rfl
    ["--swift-out-dir"] (setVar emptyEnv "UNIFFI_SWIFT_OUT_DIR" "preset")
    (by decide)

end UniffiBindgen

/-- Claim C8: on every invocation the build script emits exactly these
four lines: exactly two rerun directives — one naming `src/`, one naming
`Cargo.toml` — and exactly two warning lines, nothing else; the output is
a constant, computed from no input, with no failure case. -/
theorem claim8_build_script_output :
    BuildScript.main.filter BuildScript.isRerunDirective =
      ["cargo:rerun-if-changed=src/", "cargo:rerun-if-changed=Cargo.toml"] ∧
    (BuildScript.main.filter BuildScript.isWarningLine).length = 2 ∧
    BuildScript.main.length = 4 := by
  refine ⟨?_, ?_, rfl⟩ <;> decide
